import Mathlib

/-!
Verification of the Tikhonov-regularization core of `multifit/multireg.c`
(GNU Scientific Library).  The C code is shallowly embedded: doubles become
exact rationals (`ℚ`), the library calls `sqrt`, `pow` and `log` become
explicit function parameters of the embedded operations, vectors become
`List ℚ` and matrices become row-lists together with a column count.
Every GSL routine that writes through caller-supplied buffers is modelled
as a function returning the final contents of those buffers, so that
partial writes before an error return are observable.
-/

/-- GSL error codes used by `multireg.c`. -/
inductive GslErr where
  | EDOM
  | EINVAL
  | EBADLEN
  | ENOTSQR
deriving DecidableEq, Repr

/-- Return status of a GSL routine: `GSL_SUCCESS` or an error code
raised through the `GSL_ERROR` macro (which returns the code). -/
inductive Status where
  | ok
  | err (e : GslErr)
deriving DecidableEq, Repr

/-- A dense matrix: list of rows plus the column count (`size2`). -/
structure Mat where
  rows : List (List ℚ)
  cols : ℕ
deriving DecidableEq, Repr

def Mat.size1 (M : Mat) : ℕ := M.rows.length

def Mat.size2 (M : Mat) : ℕ := M.cols

/-- Entry `(i, j)`, reading out of range as `0`. -/
def Mat.entry (M : Mat) (i j : ℕ) : ℚ := (M.rows.getD i []).getD j 0

/-- Well-formedness: every row has exactly `cols` entries. -/
def Mat.Wf (M : Mat) : Prop := ∀ r ∈ M.rows, r.length = M.cols

/-- `gsl_vector_scale` on row `i` (in place): multiply the row by `s`. -/
def Mat.scaleRow (M : Mat) (i : ℕ) (s : ℚ) : Mat :=
  { M with rows := M.rows.set i ((M.rows.getD i []).map (fun x => x * s)) }

/-- `gsl_vector_scale` on column `j` (in place): multiply the column by `s`. -/
def Mat.scaleCol (M : Mat) (j : ℕ) (s : ℚ) : Mat :=
  { M with rows := M.rows.map (fun r => r.set j ((r.getD j 0) * s)) }

/-- An indexed map over a list, the index starting at `k`. -/
def mapWithIdx (f : ℕ → α → β) : ℕ → List α → List β
  | _, [] => []
  | k, a :: as => f k a :: mapWithIdx f (k + 1) as

/-- `gsl_matrix_set_zero`. -/
def Mat.setZero (M : Mat) : Mat :=
  { M with rows := M.rows.map (fun r => r.map (fun _ => (0 : ℚ))) }

/-- `gsl_matrix_set_identity`: entry `(i, j)` becomes `1` if `i = j`, else `0`. -/
def Mat.setIdentity (M : Mat) : Mat :=
  let f := fun i row => mapWithIdx (fun j _ => if i = j then (1 : ℚ) else 0) 0 row
  { M with rows := mapWithIdx f 0 M.rows }

/-- `gsl_vector_set_all` on `gsl_matrix_superdiagonal (M, d)`:
entry `(r, r + d)` becomes `v` for every valid row `r`. -/
def Mat.setSuperdiag (M : Mat) (d : ℕ) (v : ℚ) : Mat :=
  { M with rows := mapWithIdx (fun r row => row.set (r + d) v) 0 M.rows }

/-- `gsl_matrix_submatrix (M, 0, 0, r, c)`. -/
def Mat.submat (M : Mat) (r c : ℕ) : Mat :=
  { rows := (M.rows.take r).map (fun row => row.take c), cols := c }

/-- `gsl_multifit_linear_workspace`: the arena bounds, the current problem
size, and the buffers `multireg.c` reads or writes (`A` holds the `U`
factor of the SVD, `S` the singular values, `xt`, `QSI` and `D` are
scratch). -/
structure Workspace where
  nmax : ℕ
  pmax : ℕ
  n : ℕ
  p : ℕ
  A : Mat
  S : List ℚ
  xt : List ℚ
  QSI : Mat
  D : List ℚ
deriving DecidableEq, Repr

/-- Size check for an optional vector argument (`w != NULL && n != w->size`). -/
def optSizeBad (o : Option (List ℚ)) (n : ℕ) : Bool :=
  match o with
  | none => false
  | some v => n != v.length

/-- The weighting loop of `gsl_multifit_linear_wstdform1`: for each row index
in the list, clamp the weight at zero, take its square root and scale the
row of `Xs` and the entry of `ys`. -/
def wstdform1_wloop (sqrtf : ℚ → ℚ) (wv : List ℚ) :
    List ℕ → Mat × List ℚ → Mat × List ℚ
  | [], st => st
  | i :: is, st =>
      let wi := wv.getD i 0
      let wi2 := if wi < 0 then 0 else wi
      let swi := sqrtf wi2
      wstdform1_wloop sqrtf wv is
        (st.1.scaleRow i swi, st.2.set i ((st.2.getD i 0) * swi))

/-- The `L` loop of `gsl_multifit_linear_wstdform1`: scale each column `j`
by `1/L_j`, stopping with `GSL_EDOM` at the first zero diagonal entry
(the columns already processed stay scaled). -/
def wstdform1_Lloop (Lv : List ℚ) : List ℕ → Mat → Status × Mat
  | [], Xs => (.ok, Xs)
  | j :: js, Xs =>
      let lj := Lv.getD j 0
      if lj = 0 then (.err .EDOM, Xs)
      else wstdform1_Lloop Lv js (Xs.scaleCol j (1 / lj))

/-- `gsl_multifit_linear_wstdform1`.  Returns the status together with the
final contents of the output buffers `Xs` and `ys`. -/
def gsl_multifit_linear_wstdform1 (sqrtf : ℚ → ℚ) (L : Option (List ℚ)) (X : Mat)
    (w : Option (List ℚ)) (y : List ℚ) (Xs : Mat) (ys : List ℚ)
    (work : Workspace) : Status × Mat × List ℚ :=
  let n := X.size1
  let p := X.size2
  if n > work.nmax ∨ p > work.pmax then (.err .EBADLEN, Xs, ys)
  else if optSizeBad L p then (.err .EBADLEN, Xs, ys)
  else if n ≠ y.length then (.err .EBADLEN, Xs, ys)
  else if optSizeBad w n then (.err .EBADLEN, Xs, ys)
  else if n ≠ Xs.size1 ∨ p ≠ Xs.size2 then (.err .EBADLEN, Xs, ys)
  else if n ≠ ys.length then (.err .EBADLEN, Xs, ys)
  else
    let Xs1 := X
    let ys1 := y
    let st2 :=
      match w with
      | none => (Xs1, ys1)
      | some wv => wstdform1_wloop sqrtf wv (List.range n) (Xs1, ys1)
    match L with
    | none => (.ok, st2.1, st2.2)
    | some Lv =>
        let r := wstdform1_Lloop Lv (List.range p) st2.1
        (r.1, r.2, st2.2)

/-- `gsl_multifit_linear_wstdform2`, modelled at the level of its status.
All shape checks and the branch structure are translated from the source;
the numerical payloads delegate to the external dense linear-algebra
collaborators (`gsl_linalg_QR_decomp` and friends), whose status is the
parameter `tallStat` for the square/tall branch and `wideStat` for the
unweighted wide branch. -/
def gsl_multifit_linear_wstdform2 (sqrtf : ℚ → ℚ) (tallStat wideStat : Status)
    (L X : Mat) (w : Option (List ℚ)) (y : List ℚ) (Xs : Mat) (ys : List ℚ)
    (M : Mat) (work : Workspace) : Status :=
  let m := L.size1
  let n := X.size1
  let p := X.size2
  if n > work.nmax ∨ p > work.pmax then .err .EBADLEN
  else if p ≠ L.size2 then .err .EBADLEN
  else if n ≠ y.length then .err .EBADLEN
  else if optSizeBad w n then .err .EBADLEN
  else if p ≤ m then
    if n ≠ Xs.size1 ∨ p ≠ Xs.size2 then .err .EBADLEN
    else if n ≠ ys.length then .err .EBADLEN
    else if m ≠ M.size1 ∨ p ≠ M.size2 then .err .EBADLEN
    else
      match tallStat with
      | .err e => .err e
      | .ok =>
          match w with
          | some _ =>
              match (gsl_multifit_linear_wstdform1 sqrtf none X w y Xs ys work).1 with
              | .err e => .err e
              | .ok => .ok
          | none => .ok
  else
    let pm := p - m
    let npm := n - pm
    if npm ≠ Xs.size1 ∨ m ≠ Xs.size2 then .err .EBADLEN
    else if npm ≠ ys.length then .err .EBADLEN
    else if p ≠ M.size1 ∨ n ≠ M.size2 then .err .EBADLEN
    else
      match w with
      | some _ => .err .EINVAL
      | none => wideStat

/-- IEEE-754 style scalar for the untested division in
`gsl_multifit_linear_genform1`: a finite rational, an infinity of either
sign, or NaN.  (ℚ has no signed zero; division of a nonzero finite value
by zero picks the infinity matching the numerator's sign, matching the
double result up to the sign of a zero divisor.) -/
inductive FpQ where
  | num (q : ℚ)
  | inf
  | neginf
  | nan
deriving DecidableEq, Repr

def FpQ.isFinite : FpQ → Bool
  | .num _ => true
  | _ => false

/-- IEEE division on `FpQ`. -/
def FpQ.div : FpQ → FpQ → FpQ
  | .num a, .num b =>
      if b = 0 then (if a = 0 then .nan else if 0 < a then .inf else .neginf)
      else .num (a / b)
  | .nan, _ => .nan
  | _, .nan => .nan
  | .inf, .num b => if b < 0 then .neginf else .inf
  | .neginf, .num b => if b < 0 then .inf else .neginf
  | .inf, .inf => .nan
  | .inf, .neginf => .nan
  | .neginf, .inf => .nan
  | .neginf, .neginf => .nan
  | .num _, .inf => .num 0
  | .num _, .neginf => .num 0

/-- `gsl_multifit_linear_genform1`: after the three length checks,
`memcpy` `cs` into `c` and divide elementwise by `L`
(`gsl_vector_div`) with no check on the entries of `L`. -/
def gsl_multifit_linear_genform1 (L cs c : List FpQ) (work : Workspace) :
    Status × List FpQ :=
  if L.length > work.pmax then (.err .EBADLEN, c)
  else if L.length ≠ cs.length then (.err .EBADLEN, c)
  else if L.length ≠ c.length then (.err .EBADLEN, c)
  else
    (.ok, List.zipWith FpQ.div cs L)

/-- `GSL_DBL_EPSILON = 2^-52`. -/
def gslDblEps : ℚ := 1 / 2 ^ 52

/-- `gsl_multifit_linear_lreg`.  `powf` embeds the libm `pow` call.
Returns the status and the final contents of the `reg_param` buffer. -/
def gsl_multifit_linear_lreg (powf : ℚ → ℚ → ℚ) (smin smax : ℚ)
    (reg : List ℚ) : Status × List ℚ :=
  if smax ≤ 0 then (.err .EINVAL, reg)
  else
    let N := reg.length
    let sminRat : ℚ := 16 * gslDblEps
    let newSmin := max smin (smax * sminRat)
    let reg1 := reg.set (N - 1) newSmin
    let fac := powf (smax / newSmin) (1 / ((N : ℚ) - 1))
    let reg2 := ((List.range (N - 1)).reverse).foldl
      (fun v i => v.set i (fac * v.getD (i + 1) 0)) reg1
    (.ok, reg2)

/-- Sum of squares of a vector. -/
def sumSq (v : List ℚ) : ℚ := v.foldl (fun a x => a + x * x) 0

/-- `gsl_blas_dnrm2`: the Euclidean norm, `sqrtf` embedding the square root. -/
def dnrm2 (sqrtf : ℚ → ℚ) (v : List ℚ) : ℚ := sqrtf (sumSq v)

/-- `gsl_blas_dgemv (CblasTrans, 1, A, y, 0, xt)`: `xt = Aᵀ y`, length `p`. -/
def matTvec (A : Mat) (y : List ℚ) (p : ℕ) : List ℚ :=
  (List.range p).map (fun j =>
    (List.zipWith (fun row yi => (row.getD j 0) * yi) A.rows y).sum)

/-- `gsl_multifit_linear_lcurve`.  Returns the status and the final
contents of `reg_param`, `rho`, `eta` and the workspace (whose scratch
vector `D` is restored to all ones at the end). -/
def gsl_multifit_linear_lcurve (sqrtf : ℚ → ℚ) (powf : ℚ → ℚ → ℚ)
    (y : List ℚ) (reg_param rho eta : List ℚ) (work : Workspace) :
    Status × List ℚ × List ℚ × List ℚ × Workspace :=
  let n := y.length
  let N := rho.length
  if n ≠ work.n then (.err .EBADLEN, reg_param, rho, eta, work)
  else if N < 3 then (.err .EBADLEN, reg_param, rho, eta, work)
  else if N ≠ eta.length then (.err .EBADLEN, reg_param, rho, eta, work)
  else if reg_param.length ≠ eta.length then (.err .EBADLEN, reg_param, rho, eta, work)
  else
    let p := work.p
    let A := work.A.submat n p
    let xtv := matTvec A y p
    let normy := dnrm2 sqrtf y
    let normUTy := dnrm2 sqrtf xtv
    let dr := normy * normy - normUTy * normUTy
    let smax := work.S.getD 0 0
    let smin := work.S.getD (p - 1) 0
    let rp := (gsl_multifit_linear_lreg powf smin smax reg_param).2
    let fj := fun (lam : ℚ) (j : ℕ) =>
      let sj := work.S.getD j 0
      sj / (sj * sj + lam * lam)
    let workpAt := fun (lam : ℚ) =>
      (List.range p).map (fun j => fj lam j * xtv.getD j 0)
    let workp2At := fun (lam : ℚ) =>
      (List.range p).map (fun j => (1 - work.S.getD j 0 * fj lam j) * xtv.getD j 0)
    let etav := (List.range N).map (fun i => dnrm2 sqrtf (workpAt (rp.getD i 0)))
    let rhov := (List.range N).map (fun i => dnrm2 sqrtf (workp2At (rp.getD i 0)))
    let rhov2 :=
      if p < n ∧ 0 < dr then rhov.map (fun x => sqrtf (x * x + dr)) else rhov
    let lamLast := rp.getD (N - 1) 0
    let xtNew := mapWithIdx (fun j v => if j < p then xtv.getD j 0 else v) 0 work.xt
    let qsiRow := fun r (row : List ℚ) =>
      if r < p then row.set 0 ((workpAt lamLast).getD r 0) else row
    let qsiNew := { work.QSI with rows := mapWithIdx qsiRow 0 work.QSI.rows }
    let work2 := { work with
        xt := xtNew,
        QSI := qsiNew,
        D := List.replicate work.D.length 1 }
    (.ok, rp, rhov2, etav, work2)

/-- The C `fabs`. -/
def fabs (x : ℚ) : ℚ := if x < 0 then -x else x

/-- Circumradius of the circle through three points, translated from the
loop body shared by `gsl_multifit_linear_lcorner` and `_lcorner2`:
`none` models the non-finite double produced when the denominator
`d = fabs (2 (x21 y31 - x31 y21))` vanishes (colinear points). -/
def corner_radius (sqrtf : ℚ → ℚ) (P1 P2 P3 : ℚ × ℚ) : Option ℚ :=
  let x21 := P2.1 - P1.1
  let y21 := P2.2 - P1.2
  let x31 := P3.1 - P1.1
  let y31 := P3.2 - P1.2
  let h21 := x21 * x21 + y21 * y21
  let h31 := x31 * x31 + y31 * y31
  let d := fabs (2 * (x21 * y31 - x31 * y21))
  if d = 0 then none
  else some (sqrtf (h21 * h31 *
    ((P3.1 - P2.1) * (P3.1 - P2.1) + (P3.2 - P2.2) * (P3.2 - P2.2))) / d)

/-- `[s, s+1, ..., s+c-1]`: the index sequence of a C `for` loop. -/
def iseq (s : ℕ) : ℕ → List ℕ
  | 0 => []
  | c + 1 => s :: iseq (s + 1) c

/-- The corner-search loop: state `(rmin, idx)` starts at `(-1, idx₀)`
(`idx₀` the value the output cell `*idx` held before the call) and is
updated at index `i` whenever the radius there is finite and
`r < rmin || rmin < 0`. -/
def corner_fold (rad : ℕ → Option ℚ) : List ℕ → ℚ × ℕ → ℚ × ℕ
  | [], st => st
  | i :: l, st =>
      match rad i with
      | none => corner_fold rad l st
      | some r =>
          if r < st.1 ∨ st.1 < 0 then corner_fold rad l (r, i)
          else corner_fold rad l st

/-- The circumradius at interior index `i` of the L-curve
`(log rho, log eta)` used by `gsl_multifit_linear_lcorner`. -/
def lcorner_rad (sqrtf logf : ℚ → ℚ) (rho eta : List ℚ) (i : ℕ) : Option ℚ :=
  corner_radius sqrtf
    (logf (rho.getD (i - 1) 0), logf (eta.getD (i - 1) 0))
    (logf (rho.getD i 0), logf (eta.getD i 0))
    (logf (rho.getD (i + 1) 0), logf (eta.getD (i + 1) 0))

/-- The circumradius at interior index `i` of the squared L-curve
`(lambda², eta²)` used by `gsl_multifit_linear_lcorner2`. -/
def lcorner2_rad (sqrtf : ℚ → ℚ) (reg_param eta : List ℚ) (i : ℕ) : Option ℚ :=
  corner_radius sqrtf
    (reg_param.getD (i - 1) 0 * reg_param.getD (i - 1) 0,
     eta.getD (i - 1) 0 * eta.getD (i - 1) 0)
    (reg_param.getD i 0 * reg_param.getD i 0,
     eta.getD i 0 * eta.getD i 0)
    (reg_param.getD (i + 1) 0 * reg_param.getD (i + 1) 0,
     eta.getD (i + 1) 0 * eta.getD (i + 1) 0)

/-- `gsl_multifit_linear_lcorner`.  `idx` is the value the output cell
`*idx` holds before the call; the second component of the result is the
value it holds after the call returns. -/
def gsl_multifit_linear_lcorner (sqrtf logf : ℚ → ℚ) (rho eta : List ℚ)
    (idx : ℕ) : Status × ℕ :=
  let n := rho.length
  if n < 3 then (.err .EBADLEN, idx)
  else if n ≠ eta.length then (.err .EBADLEN, idx)
  else
    let st := corner_fold (lcorner_rad sqrtf logf rho eta) (iseq 1 (n - 2)) (-1, idx)
    if st.1 < 0 then (.err .EINVAL, st.2) else (.ok, st.2)

/-- `gsl_multifit_linear_lcorner2`. -/
def gsl_multifit_linear_lcorner2 (sqrtf : ℚ → ℚ) (reg_param eta : List ℚ)
    (idx : ℕ) : Status × ℕ :=
  let n := reg_param.length
  if n < 3 then (.err .EBADLEN, idx)
  else if n ≠ eta.length then (.err .EBADLEN, idx)
  else
    let st := corner_fold (lcorner2_rad sqrtf reg_param eta) (iseq 1 (n - 2)) (-1, idx)
    if st.1 < 0 then (.err .EINVAL, st.2) else (.ok, st.2)

/-- Specification of the corner search on a curve of `n` points with
interior radii `rad`: the call succeeded, the returned index is interior,
its radius is finite and minimal among all finite interior radii, and
every earlier interior index has a strictly larger finite radius (ties
are broken in favor of the earliest index). -/
def CornerSpec (rad : ℕ → Option ℚ) (n : ℕ) (res : Status × ℕ) : Prop :=
  res.1 = .ok ∧ 1 ≤ res.2 ∧ res.2 ≤ n - 2 ∧
  ∃ rm, rad res.2 = some rm ∧
    (∀ j, 1 ≤ j → j ≤ n - 2 → ∀ r, rad j = some r → rm ≤ r) ∧
    (∀ j, 1 ≤ j → j < res.2 → ∀ r, rad j = some r → rm < r)

/-- One pass of the alternating-sign coefficient recurrence of
`gsl_multifit_linear_Lk`: `c'_j = c_{j-1} - c_j` with carry. -/
def diffStepAux (carry : ℚ) : List ℚ → List ℚ
  | [] => []
  | c :: cs => (carry - c) :: diffStepAux c cs

/-- `gsl_multifit_linear_Lk` (`GSL_MULTIFIT_MAXK = 100`).  Returns the
status and the final contents of the `L` buffer. -/
def gsl_multifit_linear_Lk (p k : ℕ) (L : Mat) : Status × Mat :=
  if p ≤ k then (.err .EBADLEN, L)
  else if 99 ≤ k then (.err .EBADLEN, L)
  else if p - k ≠ L.size1 ∨ p ≠ L.size2 then (.err .EBADLEN, L)
  else if k = 0 then (.ok, L.setIdentity)
  else
    let L0 := L.setZero
    let cv : List ℚ := ((List.replicate (k + 1) (0 : ℚ)).set 0 (-1)).set 1 1
    let cvf := (List.range (k - 1)).foldl (fun c _ => diffStepAux 0 c) cv
    let L1 := (List.range (k + 1)).foldl
      (fun M i => M.setSuperdiag i (cvf.getD i 0)) L0
    (.ok, L1)

/-- The weight factor of the standard-form transform as the specification
states it: `sqrt (max (w_i) 0)`, or `1` when no weight vector is given. -/
def wfac (sqrtf : ℚ → ℚ) (w : Option (List ℚ)) (i : ℕ) : ℚ :=
  match w with
  | none => 1
  | some wv => sqrtf (max (wv.getD i 0) 0)

/-- The diagonal regularization factor as the specification states it:
`L_j`, or `1` when no diagonal is given. -/
def lfac (L : Option (List ℚ)) (j : ℕ) : ℚ :=
  match L with
  | none => 1
  | some Lv => Lv.getD j 0

/-! ### Helper lemmas about lists, `mapWithIdx`, `iseq` and matrices -/

theorem list_getD_set_self {α : Type} (l : List α) (i : ℕ) (a d : α)
    (h : i < l.length) : (l.set i a).getD i d = a := by
  induction l generalizing i with
  | nil => simp at h
  | cons x xs ih =>
    cases i with
    | zero => simp [List.set, List.getD]
    | succ n =>
      simp only [List.set, List.getD, List.get?]
      exact ih n (by simpa using h)

theorem list_getD_set_ne {α : Type} (l : List α) (i j : ℕ) (a d : α)
    (h : i ≠ j) : (l.set i a).getD j d = l.getD j d := by
  induction l generalizing i j with
  | nil => simp [List.set]
  | cons x xs ih =>
    cases i with
    | zero =>
      cases j with
      | zero => exact absurd rfl h
      | succ m => simp [List.set, List.getD]
    | succ n =>
      cases j with
      | zero => simp [List.set, List.getD]
      | succ m =>
        simp only [List.set, List.getD, List.get?]
        exact ih n m (by omega)

theorem list_set_of_length_le {α : Type} (l : List α) (i : ℕ) (a : α)
    (h : l.length ≤ i) : l.set i a = l := by
  induction l generalizing i with
  | nil => simp
  | cons x xs ih =>
    cases i with
    | zero => simp at h
    | succ n => simpa using ih n (by simpa using h)

theorem list_getD_map_mul (l : List ℚ) (s : ℚ) (j : ℕ) :
    (l.map (fun x => x * s)).getD j 0 = l.getD j 0 * s := by
  induction l generalizing j with
  | nil => simp [List.getD]
  | cons x xs ih =>
    cases j with
    | zero => simp [List.getD]
    | succ n => simpa [List.getD] using ih n

theorem list_getD_map_zero (l : List ℚ) (j : ℕ) :
    (l.map (fun _ => (0 : ℚ))).getD j 0 = 0 := by
  induction l generalizing j with
  | nil => simp [List.getD]
  | cons x xs ih =>
    cases j with
    | zero => simp [List.getD]
    | succ n => simp only [List.getD, List.map_cons, List.get?]; exact ih n

theorem list_getD_rows_map (f : List ℚ → List ℚ) (hf : f [] = [])
    (rows : List (List ℚ)) (i : ℕ) :
    (rows.map f).getD i [] = f (rows.getD i []) := by
  induction rows generalizing i with
  | nil => simp [List.getD, hf]
  | cons r rs ih =>
    cases i with
    | zero => simp [List.getD]
    | succ n => simpa [List.getD] using ih n

theorem mapWithIdx_length {α β : Type} (f : ℕ → α → β) (k : ℕ) (l : List α) :
    (mapWithIdx f k l).length = l.length := by
  induction l generalizing k with
  | nil => rfl
  | cons a as ih => simp [mapWithIdx, ih]

theorem mapWithIdx_getD {α β : Type} (f : ℕ → α → β) (l : List α) (k i : ℕ)
    (d : β) (da : α) (h : i < l.length) :
    (mapWithIdx f k l).getD i d = f (k + i) (l.getD i da) := by
  induction l generalizing k i with
  | nil => simp at h
  | cons a as ih =>
    cases i with
    | zero => simp [mapWithIdx, List.getD]
    | succ n =>
      have : k + (n + 1) = (k + 1) + n := by omega
      rw [this]
      simpa [mapWithIdx, List.getD] using ih (k + 1) n (by simpa using h)

theorem getD_zipWith {α : Type} (f : α → α → α) (a b : List α) (i : ℕ)
    (d d1 d2 : α) (h1 : i < a.length) (h2 : i < b.length) :
    (List.zipWith f a b).getD i d = f (a.getD i d1) (b.getD i d2) := by
  induction a generalizing b i with
  | nil => simp at h1
  | cons x xs ih =>
    cases b with
    | nil => simp at h2
    | cons y ys =>
      cases i with
      | zero => simp [List.getD]
      | succ n =>
        simpa [List.getD] using ih ys n (by simpa using h1) (by simpa using h2)

theorem mem_iseq (c : ℕ) : ∀ (s i : ℕ), i ∈ iseq s c ↔ s ≤ i ∧ i < s + c := by
  induction c with
  | zero => intro s i; simp [iseq]
  | succ m ih =>
    intro s i
    simp only [iseq, List.mem_cons, ih (s + 1) i]
    omega

theorem iseq_succ_cons (s c : ℕ) : iseq s (c + 1) = s :: iseq (s + 1) c := rfl

theorem scaleRow_size1 (M : Mat) (i : ℕ) (s : ℚ) :
    (M.scaleRow i s).size1 = M.size1 := by
  simp [Mat.scaleRow, Mat.size1]

theorem scaleRow_cols (M : Mat) (i : ℕ) (s : ℚ) :
    (M.scaleRow i s).cols = M.cols := rfl

theorem scaleRow_entry_self (M : Mat) (i j : ℕ) (s : ℚ) (h : i < M.size1) :
    (M.scaleRow i s).entry i j = M.entry i j * s := by
  simp only [Mat.scaleRow, Mat.entry]
  rw [list_getD_set_self _ _ _ _ (by simpa [Mat.size1] using h)]
  exact list_getD_map_mul _ _ _

theorem scaleRow_entry_ne (M : Mat) (i i' j : ℕ) (s : ℚ) (h : i ≠ i') :
    (M.scaleRow i s).entry i' j = M.entry i' j := by
  simp only [Mat.scaleRow, Mat.entry]
  rw [list_getD_set_ne _ _ _ _ _ h]

theorem scaleCol_size1 (M : Mat) (j : ℕ) (s : ℚ) :
    (M.scaleCol j s).size1 = M.size1 := by
  simp [Mat.scaleCol, Mat.size1]

theorem scaleCol_cols (M : Mat) (j : ℕ) (s : ℚ) :
    (M.scaleCol j s).cols = M.cols := rfl

theorem scaleCol_entry (M : Mat) (i j j' : ℕ) (s : ℚ) :
    (M.scaleCol j s).entry i j' =
      if j' = j then M.entry i j * s else M.entry i j' := by
  simp only [Mat.scaleCol, Mat.entry]
  rw [list_getD_rows_map _ rfl]
  set r := M.rows.getD i [] with hr
  by_cases hj : j' = j
  · subst hj
    by_cases hlt : j' < r.length
    · rw [if_pos rfl, list_getD_set_self _ _ _ _ hlt]
    · rw [if_pos rfl, list_set_of_length_le _ _ _ (by omega),
        List.getD_eq_default _ _ (by omega)]
      ring
  · rw [if_neg hj, list_getD_set_ne _ _ _ _ _ (fun hh => hj hh.symm)]

/-! ### The corner-search loop -/

theorem fabs_nonneg (x : ℚ) : 0 ≤ fabs x := by
  unfold fabs
  split_ifs with h
  · linarith
  · linarith

theorem corner_radius_nonneg (sqrtf : ℚ → ℚ) (hsq : ∀ a, 0 ≤ sqrtf a)
    (P1 P2 P3 : ℚ × ℚ) (r : ℚ) (h : corner_radius sqrtf P1 P2 P3 = some r) :
    0 ≤ r := by
  simp only [corner_radius] at h
  split at h
  next => exact Option.noConfusion h
  next => rw [← Option.some.inj h]; exact div_nonneg (hsq _) (fabs_nonneg _)

theorem corner_fold_none (rad : ℕ → Option ℚ) :
    ∀ (l : List ℕ) (st : ℚ × ℕ), (∀ i ∈ l, rad i = none) →
    corner_fold rad l st = st := by
  intro l
  induction l with
  | nil => intro st _; rfl
  | cons i t ih =>
    intro st h
    have hi := h i (List.mem_cons_self i t)
    show corner_fold rad (i :: t) st = st
    rw [corner_fold, hi]
    exact ih st (fun j hj => h j (List.mem_cons_of_mem _ hj))

theorem corner_fold_cases (rad : ℕ → Option ℚ)
    (hnn : ∀ i r, rad i = some r → 0 ≤ r) :
    ∀ (c s : ℕ) (st : ℚ × ℕ),
      (corner_fold rad (iseq s c) st = st ∧
        ∀ i ∈ iseq s c, ∀ r, rad i = some r → 0 ≤ st.1 ∧ st.1 ≤ r) ∨
      ((corner_fold rad (iseq s c) st).2 ∈ iseq s c ∧
        0 ≤ (corner_fold rad (iseq s c) st).1 ∧
        rad (corner_fold rad (iseq s c) st).2 =
          some (corner_fold rad (iseq s c) st).1 ∧
        (st.1 < 0 ∨ (corner_fold rad (iseq s c) st).1 < st.1) ∧
        (∀ j ∈ iseq s c, ∀ r, rad j = some r →
          (corner_fold rad (iseq s c) st).1 ≤ r) ∧
        (∀ j ∈ iseq s c, j < (corner_fold rad (iseq s c) st).2 →
          ∀ r, rad j = some r → (corner_fold rad (iseq s c) st).1 < r)) := by
  intro c
  induction c with
  | zero =>
    intro s st
    left
    exact ⟨rfl, by intro i hi; simp [iseq] at hi⟩
  | succ m ih =>
    intro s st
    rw [iseq_succ_cons]
    cases hrs : rad s with
    | none =>
      have hstep : corner_fold rad (s :: iseq (s + 1) m) st =
          corner_fold rad (iseq (s + 1) m) st := by
        rw [corner_fold, hrs]
      rcases ih (s + 1) st with ⟨heq, hall⟩ | ⟨h1, h2, h3, h4, h5, h6⟩
      · left
        refine ⟨by rw [hstep]; exact heq, ?_⟩
        intro i hi r hr
        rcases List.mem_cons.mp hi with h1 | h2
        · subst h1; rw [hrs] at hr; exact Option.noConfusion hr
        · exact hall i h2 r hr
      · right
        rw [hstep]
        refine ⟨List.mem_cons_of_mem _ h1, h2, h3, h4, ?_, ?_⟩
        · intro j hj r hr
          rcases List.mem_cons.mp hj with hh | hh
          · subst hh; rw [hrs] at hr; exact Option.noConfusion hr
          · exact h5 j hh r hr
        · intro j hj hlt r hr
          rcases List.mem_cons.mp hj with hh | hh
          · subst hh; rw [hrs] at hr; exact Option.noConfusion hr
          · exact h6 j hh hlt r hr
    | some rs =>
      have hrs0 : 0 ≤ rs := hnn s rs hrs
      by_cases hc : rs < st.1 ∨ st.1 < 0
      · have hstep : corner_fold rad (s :: iseq (s + 1) m) st =
            corner_fold rad (iseq (s + 1) m) (rs, s) := by
          rw [corner_fold, hrs]
          exact if_pos hc
        rcases ih (s + 1) (rs, s) with ⟨heq, hall⟩ | ⟨h1, h2, h3, h4, h5, h6⟩
        · right
          rw [hstep, heq]
          refine ⟨List.mem_cons_self _ _, hrs0, by simpa using hrs, Or.symm hc,
            ?_, ?_⟩
          · intro j hj r hr
            rcases List.mem_cons.mp hj with hh | hh
            · subst hh
              rw [hrs] at hr
              rw [Option.some.inj hr] at *
            · exact (hall j hh r hr).2
          · intro j hj hlt r hr
            rcases List.mem_cons.mp hj with hh | hh
            · omega
            · have := (mem_iseq m (s + 1) j).mp hh
              omega
        · right
          rw [hstep]
          have h4' : (corner_fold rad (iseq (s + 1) m) (rs, s)).1 < rs := by
            rcases h4 with hneg | hlt
            · exact absurd hneg (by simpa using hrs0)
            · exact hlt
          refine ⟨List.mem_cons_of_mem _ h1, h2, h3, ?_, ?_, ?_⟩
          · rcases hc with hlt | hneg
            · exact Or.inr (lt_trans h4' hlt)
            · exact Or.inl hneg
          · intro j hj r hr
            rcases List.mem_cons.mp hj with hh | hh
            · subst hh
              rw [hrs] at hr
              rw [← Option.some.inj hr]
              exact le_of_lt h4'
            · exact h5 j hh r hr
          · intro j hj hlt r hr
            rcases List.mem_cons.mp hj with hh | hh
            · subst hh
              rw [hrs] at hr
              rw [← Option.some.inj hr]
              exact h4'
            · exact h6 j hh hlt r hr
      · push_neg at hc
        have hstep : corner_fold rad (s :: iseq (s + 1) m) st =
            corner_fold rad (iseq (s + 1) m) st := by
          rw [corner_fold, hrs]
          exact if_neg (by push_neg; exact hc)
        rcases ih (s + 1) st with ⟨heq, hall⟩ | ⟨h1, h2, h3, h4, h5, h6⟩
        · left
          refine ⟨by rw [hstep]; exact heq, ?_⟩
          intro i hi r hr
          rcases List.mem_cons.mp hi with hh | hh
          · subst hh
            rw [hrs] at hr
            rw [← Option.some.inj hr]
            exact ⟨hc.2, hc.1⟩
          · exact hall i hh r hr
        · right
          rw [hstep]
          have h4' : (corner_fold rad (iseq (s + 1) m) st).1 < st.1 := by
            rcases h4 with hneg | hlt
            · exact absurd hneg (by simpa using hc.2)
            · exact hlt
          refine ⟨List.mem_cons_of_mem _ h1, h2, h3, h4, ?_, ?_⟩
          · intro j hj r hr
            rcases List.mem_cons.mp hj with hh | hh
            · subst hh
              rw [hrs] at hr
              rw [← Option.some.inj hr]
              exact le_of_lt (lt_of_lt_of_le h4' hc.1)
            · exact h5 j hh r hr
          · intro j hj hlt r hr
            rcases List.mem_cons.mp hj with hh | hh
            · subst hh
              rw [hrs] at hr
              rw [← Option.some.inj hr]
              exact lt_of_lt_of_le h4' hc.1
            · exact h6 j hh hlt r hr

theorem corner_fold_found (rad : ℕ → Option ℚ) (n idx : ℕ)
    (hnn : ∀ i r, rad i = some r → 0 ≤ r)
    (hex : ∃ i, 1 ≤ i ∧ i ≤ n - 2 ∧ rad i ≠ none) :
    (0 ≤ (corner_fold rad (iseq 1 (n - 2)) (-1, idx)).1) ∧
    (1 ≤ (corner_fold rad (iseq 1 (n - 2)) (-1, idx)).2) ∧
    ((corner_fold rad (iseq 1 (n - 2)) (-1, idx)).2 ≤ n - 2) ∧
    rad (corner_fold rad (iseq 1 (n - 2)) (-1, idx)).2 =
      some (corner_fold rad (iseq 1 (n - 2)) (-1, idx)).1 ∧
    (∀ j, 1 ≤ j → j ≤ n - 2 → ∀ r, rad j = some r →
      (corner_fold rad (iseq 1 (n - 2)) (-1, idx)).1 ≤ r) ∧
    (∀ j, 1 ≤ j → j < (corner_fold rad (iseq 1 (n - 2)) (-1, idx)).2 →
      ∀ r, rad j = some r → (corner_fold rad (iseq 1 (n - 2)) (-1, idx)).1 < r) := by
  obtain ⟨i0, hi1, hi2, hi3⟩ := hex
  have hn2 : 1 ≤ n - 2 := by omega
  have hmem : i0 ∈ iseq 1 (n - 2) := (mem_iseq _ _ _).mpr ⟨hi1, by omega⟩
  rcases corner_fold_cases rad hnn (n - 2) 1 (-1, idx) with
    ⟨heq, hall⟩ | ⟨h1, h2, h3, _, h5, h6⟩
  · exfalso
    obtain ⟨r, hr⟩ := Option.ne_none_iff_exists'.mp hi3
    have hcon := (hall i0 hmem r hr).1
    norm_num at hcon
  · have hm := (mem_iseq _ _ _).mp h1
    refine ⟨h2, hm.1, by omega, h3, ?_, ?_⟩
    · intro j hj1 hj2 r hr
      exact h5 j ((mem_iseq _ _ _).mpr ⟨hj1, by omega⟩) r hr
    · intro j hj1 hj2 r hr
      exact h6 j ((mem_iseq _ _ _).mpr ⟨hj1, by omega⟩) hj2 r hr

theorem corner_generic_spec (rad : ℕ → Option ℚ) (n idx : ℕ)
    (hnn : ∀ i r, rad i = some r → 0 ≤ r)
    (hex : ∃ i, 1 ≤ i ∧ i ≤ n - 2 ∧ rad i ≠ none) :
    CornerSpec rad n
      (if (corner_fold rad (iseq 1 (n - 2)) (-1, idx)).1 < 0
       then (.err .EINVAL, (corner_fold rad (iseq 1 (n - 2)) (-1, idx)).2)
       else (.ok, (corner_fold rad (iseq 1 (n - 2)) (-1, idx)).2)) := by
  have hf := corner_fold_found rad n idx hnn hex
  rw [if_neg (not_lt.mpr hf.1)]
  exact ⟨rfl, hf.2.1, hf.2.2.1, ⟨_, hf.2.2.2.1, hf.2.2.2.2.1, hf.2.2.2.2.2⟩⟩

/-- Claim C6: for vectors `rho`, `eta` of equal length `n ≥ 3` admitting at
least one interior triple with a finite circumradius,
`gsl_multifit_linear_lcorner` returns success and sets `*idx` to the
interior index `1 ≤ i ≤ n-2` whose circle through the points
`(log rho, log eta)` at `i-1, i, i+1` has the minimum finite circumradius,
skipping non-finite radii and breaking ties in favor of the earliest index;
`gsl_multifit_linear_lcorner2` computes the same selection on the
coordinates `(lambda², eta²)`. -/
theorem lcorner_minimum_finite_circumradius :
    (∀ (sqrtf logf : ℚ → ℚ) (rho eta : List ℚ) (idx : ℕ),
      (∀ a, 0 ≤ sqrtf a) →
      3 ≤ rho.length →
      eta.length = rho.length →
      (∃ i, 1 ≤ i ∧ i ≤ rho.length - 2 ∧
        lcorner_rad sqrtf logf rho eta i ≠ none) →
      CornerSpec (lcorner_rad sqrtf logf rho eta) rho.length
        (gsl_multifit_linear_lcorner sqrtf logf rho eta idx)) ∧
    (∀ (sqrtf : ℚ → ℚ) (reg_param eta : List ℚ) (idx : ℕ),
      (∀ a, 0 ≤ sqrtf a) →
      3 ≤ reg_param.length →
      eta.length = reg_param.length →
      (∃ i, 1 ≤ i ∧ i ≤ reg_param.length - 2 ∧
        lcorner2_rad sqrtf reg_param eta i ≠ none) →
      CornerSpec (lcorner2_rad sqrtf reg_param eta) reg_param.length
        (gsl_multifit_linear_lcorner2 sqrtf reg_param eta idx)) := by
  constructor
  · intro sqrtf logf rho eta idx hsq hn he hex
    have hnn : ∀ i r, lcorner_rad sqrtf logf rho eta i = some r → 0 ≤ r :=
      fun i r h => corner_radius_nonneg sqrtf hsq _ _ _ r h
    simp only [gsl_multifit_linear_lcorner]
    rw [if_neg (by omega), if_neg (by omega)]
    exact corner_generic_spec _ rho.length idx hnn hex
  · intro sqrtf reg_param eta idx hsq hn he hex
    have hnn : ∀ i r, lcorner2_rad sqrtf reg_param eta i = some r → 0 ≤ r :=
      fun i r h => corner_radius_nonneg sqrtf hsq _ _ _ r h
    simp only [gsl_multifit_linear_lcorner2]
    rw [if_neg (by omega), if_neg (by omega)]
    exact corner_generic_spec _ reg_param.length idx hnn hex

/-- Witness for C6: a concrete three-point curve with one interior index,
whose triple is not colinear, for both corner routines. -/
theorem lcorner_minimum_finite_circumradius_witness :
    CornerSpec (lcorner_rad (fun _ => 0) (fun x => x) [0, 1, 1] [0, 0, 1])
      3 (gsl_multifit_linear_lcorner (fun _ => 0) (fun x => x)
        [0, 1, 1] [0, 0, 1] 7) ∧
    CornerSpec (lcorner2_rad (fun _ => 0) [2, 1, 0] [0, 0, 1])
      3 (gsl_multifit_linear_lcorner2 (fun _ => 0) [2, 1, 0] [0, 0, 1] 7) :=
  ⟨lcorner_minimum_finite_circumradius.1 (fun _ => 0) (fun x => x)
      [0, 1, 1] [0, 0, 1] 7 (fun _ => le_refl 0) (by decide) (by decide)
      ⟨1, by decide, by decide,
        by norm_num [lcorner_rad, corner_radius, fabs]
           exact Option.some_ne_none 0⟩,
    lcorner_minimum_finite_circumradius.2 (fun _ => 0)
      [2, 1, 0] [0, 0, 1] 7 (fun _ => le_refl 0) (by decide) (by decide)
      ⟨1, by decide, by decide,
        by norm_num [lcorner2_rad, corner_radius, fabs]
           exact Option.some_ne_none 0⟩⟩

theorem iseq_one (s : ℕ) : iseq s 1 = [s] := rfl

/-- Claim C3 (amended): if for every interior grid index the circle through
the previous, current and next L-curve points has a non-finite circumradius
(a fully degenerate/colinear curve of `n ≥ 3` points), then
`gsl_multifit_linear_lcorner` and `gsl_multifit_linear_lcorner2` fail with
the invalid-argument error `GSL_EINVAL` (not the domain error `GSL_EDOM`),
leaving `*idx` unchanged. -/
theorem lcorner_degenerate_fails_einval :
    (∀ (sqrtf logf : ℚ → ℚ) (rho eta : List ℚ) (idx : ℕ),
      3 ≤ rho.length → eta.length = rho.length →
      (∀ i, 1 ≤ i → i ≤ rho.length - 2 →
        lcorner_rad sqrtf logf rho eta i = none) →
      gsl_multifit_linear_lcorner sqrtf logf rho eta idx =
        (.err .EINVAL, idx)) ∧
    (∀ (sqrtf : ℚ → ℚ) (reg_param eta : List ℚ) (idx : ℕ),
      3 ≤ reg_param.length → eta.length = reg_param.length →
      (∀ i, 1 ≤ i → i ≤ reg_param.length - 2 →
        lcorner2_rad sqrtf reg_param eta i = none) →
      gsl_multifit_linear_lcorner2 sqrtf reg_param eta idx =
        (.err .EINVAL, idx)) := by
  constructor
  · intro sqrtf logf rho eta idx hn he hall
    simp only [gsl_multifit_linear_lcorner]
    rw [if_neg (by omega), if_neg (by omega)]
    have hz := corner_fold_none (lcorner_rad sqrtf logf rho eta)
      (iseq 1 (rho.length - 2)) (-1, idx) (fun i hi => by
        have hm := (mem_iseq _ _ _).mp hi
        exact hall i hm.1 (by omega))
    rw [hz, if_pos (by norm_num)]
  · intro sqrtf reg_param eta idx hn he hall
    simp only [gsl_multifit_linear_lcorner2]
    rw [if_neg (by omega), if_neg (by omega)]
    have hz := corner_fold_none (lcorner2_rad sqrtf reg_param eta)
      (iseq 1 (reg_param.length - 2)) (-1, idx) (fun i hi => by
        have hm := (mem_iseq _ _ _).mp hi
        exact hall i hm.1 (by omega))
    rw [hz, if_pos (by norm_num)]

/-- Witness for C3 (amended): a concrete fully-colinear three-point curve
for both corner routines. -/
theorem lcorner_degenerate_fails_einval_witness :
    gsl_multifit_linear_lcorner (fun _ => 0) (fun x => x)
      [1, 2, 3] [1, 2, 3] 9 = (.err .EINVAL, 9) ∧
    gsl_multifit_linear_lcorner2 (fun _ => 0)
      [1, 2, 3] [1, 2, 3] 9 = (.err .EINVAL, 9) :=
  ⟨lcorner_degenerate_fails_einval.1 (fun _ => 0) (fun x => x)
      [1, 2, 3] [1, 2, 3] 9 (by decide) (by decide)
      (fun i h1 h2 => by
        have h3 : i = 1 := by
          simp only [List.length_cons, List.length_nil] at h2
          omega
        subst h3
        norm_num [lcorner_rad, corner_radius, fabs]),
    lcorner_degenerate_fails_einval.2 (fun _ => 0)
      [1, 2, 3] [1, 2, 3] 9 (by decide) (by decide)
      (fun i h1 h2 => by
        have h3 : i = 1 := by
          simp only [List.length_cons, List.length_nil] at h2
          omega
        subst h3
        norm_num [lcorner2_rad, corner_radius, fabs])⟩

/-- Counterexample for C3 as stated: on a fully colinear curve the corner
routines do return an error, but it is `GSL_EINVAL` (invalid argument),
not the domain error `GSL_EDOM` the claim asserts. -/
theorem lcorner_degenerate_not_edom :
    lcorner_rad (fun _ => 0) (fun x => x) [1, 2, 3] [1, 2, 3] 1 = none ∧
    (gsl_multifit_linear_lcorner (fun _ => 0) (fun x => x)
      [1, 2, 3] [1, 2, 3] 0).1 = .err .EINVAL ∧
    (gsl_multifit_linear_lcorner (fun _ => 0) (fun x => x)
      [1, 2, 3] [1, 2, 3] 0).1 ≠ .err .EDOM ∧
    lcorner2_rad (fun _ => 0) [1, 2, 3] [1, 2, 3] 1 = none ∧
    (gsl_multifit_linear_lcorner2 (fun _ => 0)
      [1, 2, 3] [1, 2, 3] 0).1 = .err .EINVAL ∧
    (gsl_multifit_linear_lcorner2 (fun _ => 0)
      [1, 2, 3] [1, 2, 3] 0).1 ≠ .err .EDOM := by
  have hrad : lcorner_rad (fun _ => 0) (fun x => x) [1, 2, 3] [1, 2, 3] 1 = none := by
    norm_num [lcorner_rad, corner_radius, fabs]
  have hrad2 : lcorner2_rad (fun _ => 0) [1, 2, 3] [1, 2, 3] 1 = none := by
    norm_num [lcorner2_rad, corner_radius, fabs]
  have h1 : gsl_multifit_linear_lcorner (fun _ => 0) (fun x => x)
      [1, 2, 3] [1, 2, 3] 0 = (.err .EINVAL, 0) := by
    simp only [gsl_multifit_linear_lcorner, List.length_cons, List.length_nil]
    norm_num [iseq_one, corner_fold, hrad]
  have h2 : gsl_multifit_linear_lcorner2 (fun _ => 0)
      [1, 2, 3] [1, 2, 3] 0 = (.err .EINVAL, 0) := by
    simp only [gsl_multifit_linear_lcorner2, List.length_cons, List.length_nil]
    norm_num [iseq_one, corner_fold, hrad2]
  refine ⟨hrad, by rw [h1], by rw [h1]; decide, hrad2, by rw [h2], by rw [h2]; decide⟩

/-- Claim C10: in both corner routines the output `*idx` is written only on
a successful return: on every error return it retains the value it held
before the call.  (`sqrtf` is required to be nonnegative-valued, as the
IEEE square root of the nonnegative radicand is.) -/
theorem lcorner_error_preserves_idx :
    (∀ (sqrtf logf : ℚ → ℚ) (rho eta : List ℚ) (idx : ℕ) (e : GslErr),
      (∀ a, 0 ≤ sqrtf a) →
      (gsl_multifit_linear_lcorner sqrtf logf rho eta idx).1 = .err e →
      (gsl_multifit_linear_lcorner sqrtf logf rho eta idx).2 = idx) ∧
    (∀ (sqrtf : ℚ → ℚ) (reg_param eta : List ℚ) (idx : ℕ) (e : GslErr),
      (∀ a, 0 ≤ sqrtf a) →
      (gsl_multifit_linear_lcorner2 sqrtf reg_param eta idx).1 = .err e →
      (gsl_multifit_linear_lcorner2 sqrtf reg_param eta idx).2 = idx) := by
  constructor
  · intro sqrtf logf rho eta idx e hsq herr
    have hnn : ∀ i r, lcorner_rad sqrtf logf rho eta i = some r → 0 ≤ r :=
      fun i r h => corner_radius_nonneg sqrtf hsq _ _ _ r h
    simp only [gsl_multifit_linear_lcorner] at herr ⊢
    by_cases h1 : rho.length < 3
    · rw [if_pos h1]
    · rw [if_neg h1] at herr ⊢
      by_cases h2 : rho.length ≠ eta.length
      · rw [if_pos h2]
      · rw [if_neg h2] at herr ⊢
        by_cases h3 : (corner_fold (lcorner_rad sqrtf logf rho eta)
            (iseq 1 (rho.length - 2)) (-1, idx)).1 < 0
        · rw [if_pos h3]
          rcases corner_fold_cases (lcorner_rad sqrtf logf rho eta) hnn
            (rho.length - 2) 1 (-1, idx) with ⟨heq, _⟩ | ⟨_, hpos, _⟩
          · rw [heq]
          · exact absurd h3 (not_lt.mpr hpos)
        · rw [if_neg h3] at herr
          exact Status.noConfusion herr
  · intro sqrtf reg_param eta idx e hsq herr
    have hnn : ∀ i r, lcorner2_rad sqrtf reg_param eta i = some r → 0 ≤ r :=
      fun i r h => corner_radius_nonneg sqrtf hsq _ _ _ r h
    simp only [gsl_multifit_linear_lcorner2] at herr ⊢
    by_cases h1 : reg_param.length < 3
    · rw [if_pos h1]
    · rw [if_neg h1] at herr ⊢
      by_cases h2 : reg_param.length ≠ eta.length
      · rw [if_pos h2]
      · rw [if_neg h2] at herr ⊢
        by_cases h3 : (corner_fold (lcorner2_rad sqrtf reg_param eta)
            (iseq 1 (reg_param.length - 2)) (-1, idx)).1 < 0
        · rw [if_pos h3]
          rcases corner_fold_cases (lcorner2_rad sqrtf reg_param eta) hnn
            (reg_param.length - 2) 1 (-1, idx) with ⟨heq, _⟩ | ⟨_, hpos, _⟩
          · rw [heq]
          · exact absurd h3 (not_lt.mpr hpos)
        · rw [if_neg h3] at herr
          exact Status.noConfusion herr

/-- Witness for C10: concrete too-short curves error with `GSL_EBADLEN`
and leave the index cell at its prior value. -/
theorem lcorner_error_preserves_idx_witness :
    ((gsl_multifit_linear_lcorner (fun _ => 0) (fun x => x)
      [1, 2] [1, 2] 5).1 = .err .EBADLEN ∧
     (gsl_multifit_linear_lcorner (fun _ => 0) (fun x => x)
      [1, 2] [1, 2] 5).2 = 5) ∧
    ((gsl_multifit_linear_lcorner2 (fun _ => 0)
      [1, 2] [1, 2] 5).1 = .err .EBADLEN ∧
     (gsl_multifit_linear_lcorner2 (fun _ => 0)
      [1, 2] [1, 2] 5).2 = 5) :=
  ⟨⟨by decide, lcorner_error_preserves_idx.1 (fun _ => 0) (fun x => x)
      [1, 2] [1, 2] 5 .EBADLEN (fun _ => le_refl 0) (by decide)⟩,
   ⟨by decide, lcorner_error_preserves_idx.2 (fun _ => 0)
      [1, 2] [1, 2] 5 .EBADLEN (fun _ => le_refl 0) (by decide)⟩⟩

/-! ### The regularization-parameter grid -/

theorem lreg_fill (fac s : ℚ) :
    ∀ (m : ℕ) (v : List ℚ), m < v.length →
    (∀ i, m ≤ i → i < v.length → v.getD i 0 = fac ^ (v.length - 1 - i) * s) →
    (((List.range m).reverse).foldl
      (fun u i => u.set i (fac * u.getD (i + 1) 0)) v).length = v.length ∧
    (∀ i, i < v.length →
      (((List.range m).reverse).foldl
        (fun u i => u.set i (fac * u.getD (i + 1) 0)) v).getD i 0 =
      fac ^ (v.length - 1 - i) * s) := by
  intro m
  induction m with
  | zero =>
    intro v _ hv
    exact ⟨by simp, fun i hi => hv i (Nat.zero_le i) hi⟩
  | succ k ih =>
    intro v hm hv
    rw [List.range_succ, List.reverse_append, List.reverse_cons, List.reverse_nil,
      List.nil_append, List.singleton_append, List.foldl_cons]
    have hk1 : v.getD (k + 1) 0 = fac ^ (v.length - 1 - (k + 1)) * s :=
      hv (k + 1) (le_refl _) hm
    set v' := v.set k (fac * v.getD (k + 1) 0) with hv'
    have hlen' : v'.length = v.length := List.length_set v k _
    have harg : ∀ i, k ≤ i → i < v'.length →
        v'.getD i 0 = fac ^ (v'.length - 1 - i) * s := by
      intro i hki hi
      rcases Nat.eq_or_lt_of_le hki with heq | hlt
      · rw [hv', ← heq, list_getD_set_self v k _ 0 (by omega), hk1,
          List.length_set]
        have he : v.length - 1 - k = (v.length - 1 - (k + 1)) + 1 := by omega
        rw [he, pow_succ]
        ring
      · rw [hv', list_getD_set_ne v k i _ 0 (by omega), hlen']
        exact hv i (by omega) (by rw [← hlen']; exact hi)
    obtain ⟨hl, he⟩ := ih v' (by rw [hlen']; omega) harg
    refine ⟨by rw [hl, hlen'], ?_⟩
    intro i hi
    rw [he i (by rw [hlen']; exact hi), hlen']

/-- Claim C1 (amended): for `0 < smin < smax` (if `smin = smax` the grid is
constant, not strictly decreasing) and a grid of size `N ≥ 3`,
`gsl_multifit_linear_lreg` succeeds, the last entry equals
`max(smin, 16·eps·smax)`, each preceding entry is
`ratio = pow(smax/floored_smin, 1/(N-1))` times its successor, the
sequence is strictly decreasing, and the first entry equals `smax`
exactly.  `powf` is any embedding of `pow` that is positive and satisfies
`ratio^(N-1) = smax/floored_smin` at the one point where the code calls
it, as the real `pow` does. -/
theorem lreg_grid (powf : ℚ → ℚ → ℚ) (smin smax : ℚ) (reg : List ℚ)
    (h0 : 0 < smin) (h1 : smin < smax) (hN : 3 ≤ reg.length)
    (hpow0 : 0 < powf (smax / max smin (smax * (16 * gslDblEps)))
      (1 / ((reg.length : ℚ) - 1)))
    (hpow1 : powf (smax / max smin (smax * (16 * gslDblEps)))
        (1 / ((reg.length : ℚ) - 1)) ^ (reg.length - 1) =
      smax / max smin (smax * (16 * gslDblEps))) :
    (gsl_multifit_linear_lreg powf smin smax reg).1 = .ok ∧
    (gsl_multifit_linear_lreg powf smin smax reg).2.length = reg.length ∧
    (gsl_multifit_linear_lreg powf smin smax reg).2.getD (reg.length - 1) 0 =
      max smin (smax * (16 * gslDblEps)) ∧
    (gsl_multifit_linear_lreg powf smin smax reg).2.getD 0 0 = smax ∧
    (∀ i, i + 1 < reg.length →
      (gsl_multifit_linear_lreg powf smin smax reg).2.getD i 0 =
        powf (smax / max smin (smax * (16 * gslDblEps)))
          (1 / ((reg.length : ℚ) - 1)) *
        (gsl_multifit_linear_lreg powf smin smax reg).2.getD (i + 1) 0) ∧
    (∀ i, i + 1 < reg.length →
      (gsl_multifit_linear_lreg powf smin smax reg).2.getD (i + 1) 0 <
        (gsl_multifit_linear_lreg powf smin smax reg).2.getD i 0) := by
  have hsmax : 0 < smax := lt_trans h0 h1
  have hspos : 0 < max smin (smax * (16 * gslDblEps)) :=
    lt_of_lt_of_le h0 (le_max_left _ _)
  have hslt : max smin (smax * (16 * gslDblEps)) < smax := by
    apply max_lt h1
    have : (16 : ℚ) * gslDblEps < 1 := by norm_num [gslDblEps]
    nlinarith
  have hb : 1 < smax / max smin (smax * (16 * gslDblEps)) :=
    (one_lt_div hspos).mpr hslt
  have hfac1 : 1 < powf (smax / max smin (smax * (16 * gslDblEps)))
      (1 / ((reg.length : ℚ) - 1)) := by
    by_contra hle
    push_neg at hle
    have hall : powf (smax / max smin (smax * (16 * gslDblEps)))
        (1 / ((reg.length : ℚ) - 1)) ^ (reg.length - 1) ≤ 1 :=
      pow_le_one₀ (le_of_lt hpow0) hle
    rw [hpow1] at hall
    linarith
  simp only [gsl_multifit_linear_lreg]
  rw [if_neg (not_le.mpr hsmax)]
  have hsetlen : (reg.set (reg.length - 1)
      (max smin (smax * (16 * gslDblEps)))).length = reg.length :=
    List.length_set reg _ _
  obtain ⟨hlen, hent⟩ := lreg_fill
    (powf (smax / max smin (smax * (16 * gslDblEps)))
      (1 / ((reg.length : ℚ) - 1)))
    (max smin (smax * (16 * gslDblEps)))
    (reg.length - 1)
    (reg.set (reg.length - 1) (max smin (smax * (16 * gslDblEps))))
    (by rw [hsetlen]; omega)
    (by
      intro i hge hlt
      rw [hsetlen] at hlt
      have hieq : i = reg.length - 1 := by omega
      subst hieq
      rw [list_getD_set_self reg _ _ 0 (by omega), hsetlen]
      have : reg.length - 1 - (reg.length - 1) = 0 := by omega
      rw [this, pow_zero, one_mul])
  rw [hsetlen] at hlen hent
  have hval : ∀ i, i < reg.length →
      (((List.range (reg.length - 1)).reverse).foldl
        (fun u j => u.set j ((powf (smax / max smin (smax * (16 * gslDblEps)))
          (1 / ((reg.length : ℚ) - 1))) * u.getD (j + 1) 0))
        (reg.set (reg.length - 1) (max smin (smax * (16 * gslDblEps))))).getD i 0 =
      (powf (smax / max smin (smax * (16 * gslDblEps)))
        (1 / ((reg.length : ℚ) - 1))) ^ (reg.length - 1 - i) *
      max smin (smax * (16 * gslDblEps)) := hent
  refine ⟨rfl, hlen, ?_, ?_, ?_, ?_⟩
  · rw [hval (reg.length - 1) (by omega)]
    have : reg.length - 1 - (reg.length - 1) = 0 := by omega
    rw [this, pow_zero, one_mul]
  · rw [hval 0 (by omega)]
    have : reg.length - 1 - 0 = reg.length - 1 := by omega
    rw [this, hpow1, div_mul_cancel₀ _ (ne_of_gt hspos)]
  · intro i hi
    rw [hval i (by omega), hval (i + 1) (by omega)]
    have he : reg.length - 1 - i = (reg.length - 1 - (i + 1)) + 1 := by omega
    rw [he, pow_succ]
    ring
  · intro i hi
    rw [hval i (by omega), hval (i + 1) (by omega)]
    have he : reg.length - 1 - i = (reg.length - 1 - (i + 1)) + 1 := by omega
    rw [he, pow_succ]
    have hpp : 0 < (powf (smax / max smin (smax * (16 * gslDblEps)))
        (1 / ((reg.length : ℚ) - 1))) ^ (reg.length - 1 - (i + 1)) *
        max smin (smax * (16 * gslDblEps)) :=
      mul_pos (pow_pos hpow0 _) hspos
    nlinarith

/-- Counterexample for C1 as stated: at `smin = smax = 1` (both positive)
and `N = 3` the grid is the constant sequence `[1, 1, 1]`, which is not
strictly decreasing.  The constant-one `powf` used here agrees with the
real `pow` at the single point where the code evaluates it: the real ratio
`r` satisfies `r ^ (N-1) = smax / max(smin, 16·eps·smax) = 1` and `0 < r`,
hence `r = 1`. -/
theorem lreg_constant_grid_not_decreasing :
    ((1 : ℚ) ^ (2 : ℕ) = 1 / max 1 ((1 : ℚ) * (16 * gslDblEps)) ∧
      (0 : ℚ) < 1) ∧
    gsl_multifit_linear_lreg (fun _ _ => 1) 1 1 [0, 0, 0] = (.ok, [1, 1, 1]) ∧
    ¬ ((gsl_multifit_linear_lreg (fun _ _ => 1) 1 1 [0, 0, 0]).2.getD 1 0 <
       (gsl_multifit_linear_lreg (fun _ _ => 1) 1 1 [0, 0, 0]).2.getD 0 0) := by
  have heval : gsl_multifit_linear_lreg (fun _ _ => 1) 1 1 [0, 0, 0] =
      (.ok, [1, 1, 1]) := by
    norm_num [gsl_multifit_linear_lreg, gslDblEps, List.range_succ,
      max_eq_left (by norm_num : (1 : ℚ) * (16 * (1 / 2 ^ 52)) ≤ 1)]
  refine ⟨⟨?_, by norm_num⟩, heval, ?_⟩
  · rw [max_eq_left (by norm_num [gslDblEps])]
    norm_num
  · rw [heval]
    norm_num

/-- Witness for C1 (amended): `smin = 1 < smax = 4`, `N = 3`, and the
faithful `pow` interpretation `ratio = 2` (indeed `2² = 4 = smax/smin`). -/
theorem lreg_grid_witness :
    (gsl_multifit_linear_lreg (fun _ _ => 2) 1 4 [0, 0, 0]).1 = .ok ∧
    (gsl_multifit_linear_lreg (fun _ _ => 2) 1 4 [0, 0, 0]).2.getD 0 0 = 4 := by
  have h := lreg_grid (fun _ _ => 2) 1 4 [0, 0, 0] (by norm_num) (by norm_num)
    (by decide) (by norm_num)
    (by
      rw [max_eq_left (by norm_num [gslDblEps])]
      norm_num)
  exact ⟨h.1, h.2.2.2.1⟩

/-! ### The diagonal standard-form transform -/

theorem wstdform1_Lloop_no_ebadlen (Lv : List ℚ) :
    ∀ (js : List ℕ) (Xs : Mat),
    (wstdform1_Lloop Lv js Xs).1 ≠ .err .EBADLEN := by
  intro js
  induction js with
  | nil => intro Xs h; exact Status.noConfusion h
  | cons j t ih =>
    intro Xs
    show (wstdform1_Lloop Lv (j :: t) Xs).1 ≠ _
    rw [wstdform1_Lloop]
    by_cases h : Lv.getD j 0 = 0
    · rw [if_pos h]
      intro hc
      exact GslErr.noConfusion (Status.err.inj hc)
    · rw [if_neg h]
      exact ih _

/-- Claim C2 (amended): every length/shape-mismatch error return
(`GSL_EBADLEN`) of `gsl_multifit_linear_wstdform1` happens before any
output mutation — on such failing calls `Xs` and `ys` still hold exactly
their input contents.  The zero-diagonal `GSL_EDOM` error, by contrast,
is raised inside the scaling loop after `Xs` and `ys` have already been
overwritten (see the counterexample). -/
theorem wstdform1_ebadlen_no_partial_writes (sqrtf : ℚ → ℚ)
    (L : Option (List ℚ)) (X : Mat) (w : Option (List ℚ)) (y : List ℚ)
    (Xs : Mat) (ys : List ℚ) (work : Workspace)
    (herr : (gsl_multifit_linear_wstdform1 sqrtf L X w y Xs ys work).1 =
      .err .EBADLEN) :
    (gsl_multifit_linear_wstdform1 sqrtf L X w y Xs ys work).2.1 = Xs ∧
    (gsl_multifit_linear_wstdform1 sqrtf L X w y Xs ys work).2.2 = ys := by
  simp only [gsl_multifit_linear_wstdform1] at herr ⊢
  split_ifs at herr ⊢ <;> try exact ⟨rfl, rfl⟩
  cases L with
  | none => exact absurd herr (by simp)
  | some Lv => exact absurd herr (wstdform1_Lloop_no_ebadlen Lv _ _)

/-- Counterexample for C2 as stated: with `L = [0]` (a zero diagonal
entry) and distinct initial output contents, the call fails with
`GSL_EDOM` but `Xs` has already been overwritten by the `memcpy` from
`X`: the outputs do not hold their input contents on this failing call. -/
theorem wstdform1_edom_mutates :
    (gsl_multifit_linear_wstdform1 (fun q => q) (some [0]) ⟨[[2]], 1⟩ none
      [3] ⟨[[5]], 1⟩ [7] ⟨1, 1, 1, 1, ⟨[[1]], 1⟩, [1], [0], ⟨[[0]], 1⟩, [1]⟩).1 =
      .err .EDOM ∧
    (gsl_multifit_linear_wstdform1 (fun q => q) (some [0]) ⟨[[2]], 1⟩ none
      [3] ⟨[[5]], 1⟩ [7] ⟨1, 1, 1, 1, ⟨[[1]], 1⟩, [1], [0], ⟨[[0]], 1⟩, [1]⟩).2.1 ≠
      ⟨[[5]], 1⟩ ∧
    (gsl_multifit_linear_wstdform1 (fun q => q) (some [0]) ⟨[[2]], 1⟩ none
      [3] ⟨[[5]], 1⟩ [7] ⟨1, 1, 1, 1, ⟨[[1]], 1⟩, [1], [0], ⟨[[0]], 1⟩, [1]⟩).2.1 =
      ⟨[[2]], 1⟩ ∧
    (gsl_multifit_linear_wstdform1 (fun q => q) (some [0]) ⟨[[2]], 1⟩ none
      [3] ⟨[[5]], 1⟩ [7] ⟨1, 1, 1, 1, ⟨[[1]], 1⟩, [1], [0], ⟨[[0]], 1⟩, [1]⟩).2.2 =
      [3] := by
  have heval : gsl_multifit_linear_wstdform1 (fun q => q) (some [0]) ⟨[[2]], 1⟩
      none [3] ⟨[[5]], 1⟩ [7] ⟨1, 1, 1, 1, ⟨[[1]], 1⟩, [1], [0], ⟨[[0]], 1⟩, [1]⟩ =
      (.err .EDOM, ⟨[[2]], 1⟩, [3]) := by
    norm_num [gsl_multifit_linear_wstdform1, optSizeBad, wstdform1_Lloop,
      Mat.size1, Mat.size2, List.range_succ]
  rw [heval]
  refine ⟨rfl, ?_, rfl, rfl⟩
  intro hc
  have := congrArg Mat.rows hc
  simp at this

/-- Witness for C2 (amended): a concrete call with a `y` length mismatch
fails with `GSL_EBADLEN` and leaves the output buffers untouched. -/
theorem wstdform1_ebadlen_no_partial_writes_witness :
    (gsl_multifit_linear_wstdform1 (fun q => q) none ⟨[[2]], 1⟩ none
      [3, 4] ⟨[[5]], 1⟩ [7] ⟨1, 1, 1, 1, ⟨[[1]], 1⟩, [1], [0], ⟨[[0]], 1⟩, [1]⟩).1 =
      .err .EBADLEN ∧
    (gsl_multifit_linear_wstdform1 (fun q => q) none ⟨[[2]], 1⟩ none
      [3, 4] ⟨[[5]], 1⟩ [7] ⟨1, 1, 1, 1, ⟨[[1]], 1⟩, [1], [0], ⟨[[0]], 1⟩, [1]⟩).2.1 =
      ⟨[[5]], 1⟩ ∧
    (gsl_multifit_linear_wstdform1 (fun q => q) none ⟨[[2]], 1⟩ none
      [3, 4] ⟨[[5]], 1⟩ [7] ⟨1, 1, 1, 1, ⟨[[1]], 1⟩, [1], [0], ⟨[[0]], 1⟩, [1]⟩).2.2 =
      [7] := by
  have hst : (gsl_multifit_linear_wstdform1 (fun q => q) none ⟨[[2]], 1⟩ none
      [3, 4] ⟨[[5]], 1⟩ [7] ⟨1, 1, 1, 1, ⟨[[1]], 1⟩, [1], [0], ⟨[[0]], 1⟩, [1]⟩).1 =
      .err .EBADLEN := by
    norm_num [gsl_multifit_linear_wstdform1, optSizeBad, Mat.size1, Mat.size2]
  have h := wstdform1_ebadlen_no_partial_writes (fun q => q) none ⟨[[2]], 1⟩
    none [3, 4] ⟨[[5]], 1⟩ [7] ⟨1, 1, 1, 1, ⟨[[1]], 1⟩, [1], [0], ⟨[[0]], 1⟩, [1]⟩ hst
  exact ⟨hst, h.1, h.2⟩

theorem ite_neg_clamp (a : ℚ) : (if a < 0 then 0 else a) = max a 0 := by
  rcases lt_or_le a 0 with h | h
  · rw [if_pos h, max_eq_right (le_of_lt h)]
  · rw [if_neg (not_lt.mpr h), max_eq_left h]

theorem wloop_entry (sqrtf : ℚ → ℚ) (wv : List ℚ) :
    ∀ (l : List ℕ), l.Nodup →
    ∀ (st : Mat × List ℚ), (∀ i ∈ l, i < st.1.size1) →
    ∀ i' j, (wstdform1_wloop sqrtf wv l st).1.entry i' j =
      if i' ∈ l then
        st.1.entry i' j *
          sqrtf (if wv.getD i' 0 < 0 then 0 else wv.getD i' 0)
      else st.1.entry i' j := by
  intro l
  induction l with
  | nil =>
    intro _ st _ i' j
    simp [wstdform1_wloop]
  | cons i t ih =>
    intro hnd st hbnd i' j
    have hnt : i ∉ t := (List.nodup_cons.mp hnd).1
    have hndt : t.Nodup := (List.nodup_cons.mp hnd).2
    simp only [wstdform1_wloop]
    set swi := sqrtf (if wv.getD i 0 < 0 then 0 else wv.getD i 0) with hswi
    have hbnd' : ∀ i'' ∈ t, i'' <
        (st.1.scaleRow i swi, st.2.set i (st.2.getD i 0 * swi)).1.size1 := by
      intro i'' hi''
      rw [scaleRow_size1]
      exact hbnd i'' (List.mem_cons_of_mem _ hi'')
    rw [ih hndt _ hbnd' i' j]
    by_cases hmem : i' ∈ t
    · rw [if_pos hmem, if_pos (List.mem_cons_of_mem _ hmem)]
      have hne : i ≠ i' := fun hc => hnt (hc ▸ hmem)
      rw [scaleRow_entry_ne _ _ _ _ _ hne]
    · rw [if_neg hmem]
      by_cases heq : i' = i
      · subst heq
        rw [if_pos (List.mem_cons_self _ _),
          scaleRow_entry_self _ _ _ _ (hbnd i' (List.mem_cons_self _ _))]
      · rw [if_neg (fun hc => by
          rcases List.mem_cons.mp hc with h | h
          · exact heq h
          · exact hmem h),
          scaleRow_entry_ne _ _ _ _ _ (fun hc => heq hc.symm)]

theorem wloop_ys (sqrtf : ℚ → ℚ) (wv : List ℚ) :
    ∀ (l : List ℕ), l.Nodup →
    ∀ (st : Mat × List ℚ), (∀ i ∈ l, i < st.2.length) →
    ∀ i', (wstdform1_wloop sqrtf wv l st).2.getD i' 0 =
      if i' ∈ l then
        st.2.getD i' 0 *
          sqrtf (if wv.getD i' 0 < 0 then 0 else wv.getD i' 0)
      else st.2.getD i' 0 := by
  intro l
  induction l with
  | nil =>
    intro _ st _ i'
    simp [wstdform1_wloop]
  | cons i t ih =>
    intro hnd st hbnd i'
    have hnt : i ∉ t := (List.nodup_cons.mp hnd).1
    have hndt : t.Nodup := (List.nodup_cons.mp hnd).2
    simp only [wstdform1_wloop]
    set swi := sqrtf (if wv.getD i 0 < 0 then 0 else wv.getD i 0) with hswi
    have hbnd' : ∀ i'' ∈ t, i'' <
        (st.1.scaleRow i swi, st.2.set i (st.2.getD i 0 * swi)).2.length := by
      intro i'' hi''
      simp only [List.length_set]
      exact hbnd i'' (List.mem_cons_of_mem _ hi'')
    rw [ih hndt _ hbnd' i']
    by_cases hmem : i' ∈ t
    · rw [if_pos hmem, if_pos (List.mem_cons_of_mem _ hmem)]
      have hne : i ≠ i' := fun hc => hnt (hc ▸ hmem)
      rw [list_getD_set_ne _ _ _ _ _ hne]
    · rw [if_neg hmem]
      by_cases heq : i' = i
      · subst heq
        rw [if_pos (List.mem_cons_self _ _),
          list_getD_set_self _ _ _ _ (hbnd i' (List.mem_cons_self _ _))]
      · rw [if_neg (fun hc => by
          rcases List.mem_cons.mp hc with h | h
          · exact heq h
          · exact hmem h),
          list_getD_set_ne _ _ _ _ _ (fun hc => heq hc.symm)]

theorem Lloop_entries (Lv : List ℚ) :
    ∀ (l : List ℕ), l.Nodup → (∀ j ∈ l, Lv.getD j 0 ≠ 0) →
    ∀ (Xs : Mat),
    (wstdform1_Lloop Lv l Xs).1 = .ok ∧
    (∀ i j, (wstdform1_Lloop Lv l Xs).2.entry i j =
      if j ∈ l then Xs.entry i j * (1 / Lv.getD j 0) else Xs.entry i j) := by
  intro l
  induction l with
  | nil =>
    intro _ _ Xs
    exact ⟨rfl, fun i j => by simp [wstdform1_Lloop]⟩
  | cons j t ih =>
    intro hnd hnz Xs
    have hnt : j ∉ t := (List.nodup_cons.mp hnd).1
    have hndt : t.Nodup := (List.nodup_cons.mp hnd).2
    have hj : Lv.getD j 0 ≠ 0 := hnz j (List.mem_cons_self _ _)
    simp only [wstdform1_Lloop]
    rw [if_neg hj]
    obtain ⟨hok, hent⟩ := ih hndt
      (fun j' hj' => hnz j' (List.mem_cons_of_mem _ hj'))
      (Xs.scaleCol j (1 / Lv.getD j 0))
    refine ⟨hok, ?_⟩
    intro i j'
    rw [hent i j', scaleCol_entry]
    by_cases hmem : j' ∈ t
    · rw [if_pos hmem, if_pos (List.mem_cons_of_mem _ hmem)]
      have hne : ¬ j' = j := fun hc => hnt (hc ▸ hmem)
      rw [if_neg hne]
    · rw [if_neg hmem]
      by_cases heq : j' = j
      · subst heq
        rw [if_pos rfl, if_pos (List.mem_cons_self _ _)]
      · rw [if_neg heq, if_neg (fun hc => by
          rcases List.mem_cons.mp hc with h | h
          · exact heq h
          · exact hmem h)]

/-- Claim C4: for `X` (n×p), `y` (length n), optional weights `w` (length
n), and diagonal `L` (length p, all entries nonzero) whose shapes match
and fit the workspace bounds, `gsl_multifit_linear_wstdform1` succeeds and
produces `Xs[i][j] = sqrt(max(w_i, 0)) · X[i][j] / L[j]` and
`ys[i] = sqrt(max(w_i, 0)) · y[i]` (with `W = I` when `w` is absent and
`L⁻¹ = I` when `L` is absent); negative weights are clamped to zero, not
an error. -/
theorem wstdform1_standard_form (sqrtf : ℚ → ℚ) (L : Option (List ℚ)) (X : Mat)
    (w : Option (List ℚ)) (y : List ℚ) (Xs : Mat) (ys : List ℚ)
    (work : Workspace)
    (hn : X.size1 ≤ work.nmax) (hp : X.size2 ≤ work.pmax)
    (hL : ∀ Lv, L = some Lv → Lv.length = X.size2)
    (hLnz : ∀ Lv, L = some Lv → ∀ j, j < X.size2 → Lv.getD j 0 ≠ 0)
    (hy : y.length = X.size1)
    (hw : ∀ wv, w = some wv → wv.length = X.size1)
    (hXs1 : Xs.size1 = X.size1) (hXs2 : Xs.size2 = X.size2)
    (hys : ys.length = X.size1) :
    (gsl_multifit_linear_wstdform1 sqrtf L X w y Xs ys work).1 = .ok ∧
    (∀ i j, i < X.size1 → j < X.size2 →
      (gsl_multifit_linear_wstdform1 sqrtf L X w y Xs ys work).2.1.entry i j =
        wfac sqrtf w i * X.entry i j / lfac L j) ∧
    (∀ i, i < X.size1 →
      (gsl_multifit_linear_wstdform1 sqrtf L X w y Xs ys work).2.2.getD i 0 =
        wfac sqrtf w i * y.getD i 0) := by
  simp only [gsl_multifit_linear_wstdform1]
  split_ifs with h1 h2 h3 h4 h5 h6
  · exact absurd h1 (by omega)
  · exfalso
    cases L with
    | none => simp [optSizeBad] at h2
    | some Lv => simp [optSizeBad, hL Lv rfl] at h2
  · exact absurd h3 (by omega)
  · exfalso
    cases w with
    | none => simp [optSizeBad] at h4
    | some wv => simp [optSizeBad, hw wv rfl] at h4
  · exact absurd h5 (by omega)
  · exact absurd h6 (by omega)
  · cases w with
    | none =>
      cases L with
      | none =>
        dsimp only
        refine ⟨rfl, ?_, ?_⟩
        · intro i j hi hj
          simp only [wfac, lfac]
          ring
        · intro i hi
          simp only [wfac]
          ring
      | some Lv =>
        dsimp only
        obtain ⟨hok, hent⟩ := Lloop_entries Lv (List.range X.size2)
          (List.nodup_range _)
          (fun j hj => hLnz Lv rfl j (List.mem_range.mp hj)) X
        refine ⟨hok, ?_, ?_⟩
        · intro i j hi hj
          rw [hent i j, if_pos (List.mem_range.mpr hj)]
          simp only [wfac, lfac]
          ring
        · intro i hi
          simp only [wfac]
          ring
    | some wv =>
      have hbel : ∀ i ∈ List.range X.size1, i < (X, y).1.size1 :=
        fun i hi => List.mem_range.mp hi
      have hbel2 : ∀ i ∈ List.range X.size1, i < (X, y).2.length := by
        intro i hi
        show i < y.length
        rw [hy]
        exact List.mem_range.mp hi
      have hXent := wloop_entry sqrtf wv (List.range X.size1)
        (List.nodup_range _) (X, y) hbel
      have hYent := wloop_ys sqrtf wv (List.range X.size1)
        (List.nodup_range _) (X, y) hbel2
      cases L with
      | none =>
        dsimp only
        refine ⟨rfl, ?_, ?_⟩
        · intro i j hi hj
          rw [hXent i j, if_pos (List.mem_range.mpr hi), ite_neg_clamp]
          simp only [wfac, lfac]
          ring
        · intro i hi
          rw [hYent i, if_pos (List.mem_range.mpr hi), ite_neg_clamp]
          simp only [wfac]
          ring
      | some Lv =>
        dsimp only
        obtain ⟨hok, hent⟩ := Lloop_entries Lv (List.range X.size2)
          (List.nodup_range _)
          (fun j hj => hLnz Lv rfl j (List.mem_range.mp hj))
          (wstdform1_wloop sqrtf wv (List.range X.size1) (X, y)).1
        refine ⟨hok, ?_, ?_⟩
        · intro i j hi hj
          rw [hent i j, if_pos (List.mem_range.mpr hj), hXent i j,
            if_pos (List.mem_range.mpr hi), ite_neg_clamp]
          simp only [wfac, lfac]
          ring
        · intro i hi
          rw [hYent i, if_pos (List.mem_range.mpr hi), ite_neg_clamp]
          simp only [wfac]
          ring

/-- Witness for C4: a concrete call with a negative weight entry (clamped
to zero rather than rejected) and a nontrivial diagonal `L`. -/
theorem wstdform1_standard_form_witness :
    (gsl_multifit_linear_wstdform1 (fun q => q) (some [2]) ⟨[[2]], 1⟩
      (some [-1]) [3] ⟨[[5]], 1⟩ [7]
      ⟨1, 1, 1, 1, ⟨[[1]], 1⟩, [1], [0], ⟨[[0]], 1⟩, [1]⟩).1 = .ok ∧
    (gsl_multifit_linear_wstdform1 (fun q => q) (some [2]) ⟨[[2]], 1⟩
      (some [-1]) [3] ⟨[[5]], 1⟩ [7]
      ⟨1, 1, 1, 1, ⟨[[1]], 1⟩, [1], [0], ⟨[[0]], 1⟩, [1]⟩).2.1.entry 0 0 =
      wfac (fun q => q) (some [-1]) 0 * Mat.entry ⟨[[2]], 1⟩ 0 0 /
        lfac (some [2]) 0 ∧
    (gsl_multifit_linear_wstdform1 (fun q => q) (some [2]) ⟨[[2]], 1⟩
      (some [-1]) [3] ⟨[[5]], 1⟩ [7]
      ⟨1, 1, 1, 1, ⟨[[1]], 1⟩, [1], [0], ⟨[[0]], 1⟩, [1]⟩).2.2.getD 0 0 =
      wfac (fun q => q) (some [-1]) 0 * ([3] : List ℚ).getD 0 0 := by
  have h := wstdform1_standard_form (fun q => q) (some [2]) ⟨[[2]], 1⟩
    (some [-1]) [3] ⟨[[5]], 1⟩ [7]
    ⟨1, 1, 1, 1, ⟨[[1]], 1⟩, [1], [0], ⟨[[0]], 1⟩, [1]⟩
    (by decide) (by decide)
    (by intro Lv hLv; cases hLv; decide)
    (by
      intro Lv hLv j hj
      cases hLv
      have hj0 : j = 0 := by
        simp only [Mat.size2] at hj
        omega
      subst hj0
      norm_num [List.getD])
    (by decide)
    (by intro wv hwv; cases hwv; decide)
    (by decide) (by decide) (by decide)
  exact ⟨h.1, h.2.1 0 0 (by decide) (by decide), h.2.2 0 (by decide)⟩

/-! ### The general standard-form transform, wide branch -/

/-- Claim C5: for every general regularization matrix `L` with `m < p` rows
(the rank-deficient/wide branch, all other shape checks passing) and every
non-NULL weight vector `w`, `gsl_multifit_linear_wstdform2` fails with the
invalid-argument error `GSL_EINVAL`: weighted fits are unsupported on that
branch, whatever the external linear-algebra collaborators would return. -/
theorem wstdform2_wide_weights_einval (sqrtf : ℚ → ℚ)
    (tallStat wideStat : Status) (L X : Mat) (wv : List ℚ) (y : List ℚ)
    (Xs : Mat) (ys : List ℚ) (M : Mat) (work : Workspace)
    (hmp : L.size1 < X.size2)
    (hn : X.size1 ≤ work.nmax) (hp : X.size2 ≤ work.pmax)
    (hL2 : X.size2 = L.size2)
    (hy : y.length = X.size1)
    (hwlen : wv.length = X.size1)
    (hXs1 : Xs.size1 = X.size1 - (X.size2 - L.size1))
    (hXs2 : Xs.size2 = L.size1)
    (hyslen : ys.length = X.size1 - (X.size2 - L.size1))
    (hM1 : M.size1 = X.size2) (hM2 : M.size2 = X.size1) :
    gsl_multifit_linear_wstdform2 sqrtf tallStat wideStat L X (some wv) y
      Xs ys M work = .err .EINVAL := by
  simp only [gsl_multifit_linear_wstdform2]
  rw [if_neg (by omega), if_neg (by omega), if_neg (by omega),
    if_neg (by simp [optSizeBad, hwlen]), if_neg (by omega),
    if_neg (by omega), if_neg (by omega), if_neg (by omega)]

/-- Witness for C5: a concrete wide `L` (1×2) with `X` 3×2 and a weight
vector present; the call returns `GSL_EINVAL`. -/
theorem wstdform2_wide_weights_einval_witness :
    gsl_multifit_linear_wstdform2 (fun q => q) .ok .ok ⟨[[1, 1]], 2⟩
      ⟨[[1, 0], [0, 1], [1, 1]], 2⟩ (some [1, 1, 1]) [1, 2, 3]
      ⟨[[0], [0]], 1⟩ [0, 0] ⟨[[0, 0, 0], [0, 0, 0]], 3⟩
      ⟨3, 2, 3, 2, ⟨[], 0⟩, [], [], ⟨[], 0⟩, []⟩ = .err .EINVAL :=
  wstdform2_wide_weights_einval (fun q => q) .ok .ok ⟨[[1, 1]], 2⟩
    ⟨[[1, 0], [0, 1], [1, 1]], 2⟩ [1, 1, 1] [1, 2, 3]
    ⟨[[0], [0]], 1⟩ [0, 0] ⟨[[0, 0, 0], [0, 0, 0]], 3⟩
    ⟨3, 2, 3, 2, ⟨[], 0⟩, [], [], ⟨[], 0⟩, []⟩
    (by decide) (by decide) (by decide) (by decide) (by decide) (by decide)
    (by decide) (by decide) (by decide) (by decide) (by decide)

/-! ### The diagonal back-transform -/

/-- Claim C9: `gsl_multifit_linear_genform1` performs no singularity or
domain check on the diagonal `L`: for every `L`, `cs`, `c` of equal length
within the workspace bound — including an `L` with zero entries — it
returns success with `c = cs ⊘ L` under IEEE division, and a zero entry of
`L` makes the corresponding entry of `c` the IEEE result of dividing by
zero, which is non-finite when the `cs` entry is nonzero, instead of
raising the singular-matrix error the forward transform raises. -/
theorem genform1_no_singularity_check (L cs c : List FpQ) (work : Workspace)
    (hp : L.length ≤ work.pmax) (hcs : cs.length = L.length)
    (hc : c.length = L.length) :
    (gsl_multifit_linear_genform1 L cs c work).1 = .ok ∧
    (gsl_multifit_linear_genform1 L cs c work).2 =
      List.zipWith FpQ.div cs L ∧
    (∀ i, i < L.length → L.getD i (.num 1) = .num 0 →
      ∀ q, cs.getD i (.num 0) = .num q → q ≠ 0 →
      ((gsl_multifit_linear_genform1 L cs c work).2.getD i
        (.num 0)).isFinite = false) := by
  simp only [gsl_multifit_linear_genform1]
  rw [if_neg (by omega), if_neg (by omega), if_neg (by omega)]
  refine ⟨rfl, rfl, ?_⟩
  intro i hi hLz q hq hqne
  rw [getD_zipWith FpQ.div cs L i (.num 0) (.num 0) (.num 1)
    (by omega) hi, hq, hLz]
  simp only [FpQ.div, if_pos rfl, if_neg hqne]
  by_cases hpos : 0 < q
  · rw [if_pos hpos]
    rfl
  · rw [if_neg hpos]
    rfl

/-- Witness for C9: `L = [0, 2]` has a zero entry, yet the call succeeds
and the first entry of `c` is the non-finite result of `1 / 0`. -/
theorem genform1_no_singularity_check_witness :
    (gsl_multifit_linear_genform1 [.num 0, .num 2] [.num 1, .num 4]
      [.num 9, .num 9] ⟨1, 2, 1, 1, ⟨[[1]], 1⟩, [1], [0], ⟨[[0]], 1⟩, [1]⟩).1 =
      .ok ∧
    ((gsl_multifit_linear_genform1 [.num 0, .num 2] [.num 1, .num 4]
      [.num 9, .num 9] ⟨1, 2, 1, 1, ⟨[[1]], 1⟩, [1], [0], ⟨[[0]], 1⟩, [1]⟩).2.getD 0
      (.num 0)).isFinite = false := by
  have h := genform1_no_singularity_check [.num 0, .num 2] [.num 1, .num 4]
    [.num 9, .num 9] ⟨1, 2, 1, 1, ⟨[[1]], 1⟩, [1], [0], ⟨[[0]], 1⟩, [1]⟩
    (by decide) (by decide) (by decide)
  exact ⟨h.1, h.2.2 0 (by decide) rfl 1 rfl (by norm_num)⟩

/-! ### The L-curve computation -/

/-- Claim C7: after every successful call to `gsl_multifit_linear_lcurve`,
the workspace scratch vector `D` (reused during the computation) holds all
ones, restoring the identity state other unregularized computations
against the same workspace rely on. -/
theorem lcurve_restores_D (sqrtf : ℚ → ℚ) (powf : ℚ → ℚ → ℚ)
    (y reg_param rho eta : List ℚ) (work : Workspace)
    (hok : (gsl_multifit_linear_lcurve sqrtf powf y reg_param rho eta
      work).1 = .ok) :
    (gsl_multifit_linear_lcurve sqrtf powf y reg_param rho eta
      work).2.2.2.2.D = List.replicate work.D.length 1 := by
  simp only [gsl_multifit_linear_lcurve] at hok ⊢
  split_ifs at hok ⊢ <;> first
    | exact Status.noConfusion hok
    | rfl

/-- Witness for C7: a concrete successful call on a 1×1 system with a
three-point grid; `D` starts at `[5]` and ends at `[1]`. -/
theorem lcurve_restores_D_witness :
    (gsl_multifit_linear_lcurve (fun _ => 0) (fun _ _ => 1) [1] [0, 0, 0]
      [0, 0, 0] [0, 0, 0] ⟨1, 1, 1, 1, ⟨[[1]], 1⟩, [1], [0], ⟨[[0]], 1⟩, [5]⟩).1 =
      .ok ∧
    (gsl_multifit_linear_lcurve (fun _ => 0) (fun _ _ => 1) [1] [0, 0, 0]
      [0, 0, 0] [0, 0, 0]
      ⟨1, 1, 1, 1, ⟨[[1]], 1⟩, [1], [0], ⟨[[0]], 1⟩, [5]⟩).2.2.2.2.D =
      List.replicate ([5] : List ℚ).length 1 :=
  ⟨by decide, lcurve_restores_D (fun _ => 0) (fun _ _ => 1) [1] [0, 0, 0]
    [0, 0, 0] [0, 0, 0] ⟨1, 1, 1, 1, ⟨[[1]], 1⟩, [1], [0], ⟨[[0]], 1⟩, [5]⟩
    (by decide)⟩

/-! ### The finite-difference operator builder -/

theorem getD_mem_of_lt {α : Type} (l : List α) (i : ℕ) (d : α)
    (h : i < l.length) : l.getD i d ∈ l := by
  induction l generalizing i with
  | nil => simp at h
  | cons x xs ih =>
    cases i with
    | zero => exact List.mem_cons_self _ _
    | succ n =>
      exact List.mem_cons_of_mem _ (ih n (by simpa using h))

theorem wf_row_length (M : Mat) (hwf : M.Wf) (i : ℕ) (hi : i < M.size1) :
    (M.rows.getD i []).length = M.cols :=
  hwf _ (getD_mem_of_lt M.rows i [] hi)

theorem setZero_entry (M : Mat) (i j : ℕ) : (M.setZero).entry i j = 0 := by
  simp only [Mat.setZero, Mat.entry]
  rw [list_getD_rows_map _ rfl]
  exact list_getD_map_zero _ _

theorem setZero_size1 (M : Mat) : (M.setZero).size1 = M.size1 := by
  simp [Mat.setZero, Mat.size1]

theorem setZero_row_length (M : Mat) (i : ℕ) :
    ((M.setZero).rows.getD i []).length = (M.rows.getD i []).length := by
  simp only [Mat.setZero]
  rw [list_getD_rows_map _ rfl]
  simp

theorem setIdentity_entry (M : Mat) (hwf : M.Wf) (i j : ℕ)
    (hi : i < M.size1) (hj : j < M.cols) :
    (M.setIdentity).entry i j = if i = j then 1 else 0 := by
  simp only [Mat.setIdentity, Mat.entry]
  rw [mapWithIdx_getD _ M.rows 0 i [] [] hi]
  rw [mapWithIdx_getD _ (M.rows.getD i []) 0 j 0 0
    (by rw [wf_row_length M hwf i hi]; exact hj)]
  simp

theorem setSuperdiag_size1 (M : Mat) (d : ℕ) (v : ℚ) :
    (M.setSuperdiag d v).size1 = M.size1 := by
  simp only [Mat.setSuperdiag, Mat.size1]
  exact mapWithIdx_length _ _ _

theorem setSuperdiag_row_length (M : Mat) (d : ℕ) (v : ℚ) (i : ℕ)
    (hi : i < M.size1) :
    ((M.setSuperdiag d v).rows.getD i []).length =
      (M.rows.getD i []).length := by
  simp only [Mat.setSuperdiag]
  rw [mapWithIdx_getD _ M.rows 0 i [] [] hi]
  simp [List.length_set]

theorem setSuperdiag_entry (M : Mat) (d : ℕ) (v : ℚ) (i j : ℕ)
    (hi : i < M.size1) :
    (M.setSuperdiag d v).entry i j =
      if j = i + d ∧ j < (M.rows.getD i []).length then v
      else M.entry i j := by
  simp only [Mat.setSuperdiag, Mat.entry]
  rw [mapWithIdx_getD _ M.rows 0 i [] [] hi]
  simp only [Nat.zero_add]
  by_cases h1 : j = i + d
  · by_cases h2 : j < (M.rows.getD i []).length
    · rw [if_pos ⟨h1, h2⟩, ← h1, list_getD_set_self _ _ _ _ h2]
    · rw [if_neg (fun hc => h2 hc.2), ← h1,
        list_set_of_length_le _ _ _ (by omega)]
  · rw [if_neg (fun hc => h1 hc.1),
      list_getD_set_ne _ _ _ _ _ (fun hc => h1 hc.symm)]

/-- Claim C8: `gsl_multifit_linear_Lk (p, 0, L)` sets `L` to the p×p
identity; `gsl_multifit_linear_Lk (p, 1, L)` produces the (p-1)×p matrix
whose row `i` is `-1` at column `i`, `+1` at column `i+1` and zero
elsewhere; and for every `p ≤ k` the call fails with the length-mismatch
error `GSL_EBADLEN`. -/
theorem Lk_identity_firstdiff_badlen :
    (∀ (p : ℕ) (L : Mat), 0 < p → L.Wf → L.size1 = p → L.size2 = p →
      (gsl_multifit_linear_Lk p 0 L).1 = .ok ∧
      ∀ i j, i < p → j < p →
        (gsl_multifit_linear_Lk p 0 L).2.entry i j =
          if i = j then 1 else 0) ∧
    (∀ (p : ℕ) (L : Mat), 2 ≤ p → L.Wf → L.size1 = p - 1 → L.size2 = p →
      (gsl_multifit_linear_Lk p 1 L).1 = .ok ∧
      ∀ i j, i < p - 1 → j < p →
        (gsl_multifit_linear_Lk p 1 L).2.entry i j =
          if j = i then -1 else if j = i + 1 then 1 else 0) ∧
    (∀ (p k : ℕ) (L : Mat), p ≤ k →
      (gsl_multifit_linear_Lk p k L).1 = .err .EBADLEN) := by
  refine ⟨?_, ?_, ?_⟩
  · intro p L hp hwf h1 h2
    have key : gsl_multifit_linear_Lk p 0 L = (.ok, L.setIdentity) := by
      simp only [gsl_multifit_linear_Lk]
      rw [if_neg (by omega), if_neg (by omega), if_neg (by omega),
        if_pos (by trivial)]
    rw [key]
    refine ⟨rfl, ?_⟩
    intro i j hi hj
    exact setIdentity_entry L hwf i j (by omega)
      (by rw [show L.cols = L.size2 from rfl, h2]; exact hj)
  · intro p L hp hwf h1 h2
    have key : gsl_multifit_linear_Lk p 1 L =
        (.ok, ((L.setZero).setSuperdiag 0 (-1)).setSuperdiag 1 1) := by
      simp only [gsl_multifit_linear_Lk]
      rw [if_neg (by omega), if_neg (by omega), if_neg (by omega),
        if_neg (by simp)]
      rfl
    rw [key]
    refine ⟨rfl, ?_⟩
    intro i j hi hj
    have hiz : i < (L.setZero).size1 := by rw [setZero_size1]; omega
    have hrow0 : ((L.setZero).rows.getD i []).length = p := by
      rw [setZero_row_length, wf_row_length L hwf i (by omega),
        show L.cols = L.size2 from rfl, h2]
    have hi1 : i < ((L.setZero).setSuperdiag 0 (-1)).size1 := by
      rw [setSuperdiag_size1]; exact hiz
    have hrow1 : ((((L.setZero).setSuperdiag 0 (-1))).rows.getD i []).length = p := by
      rw [setSuperdiag_row_length _ _ _ _ hiz, hrow0]
    rw [setSuperdiag_entry _ 1 1 i j hi1]
    by_cases hji1 : j = i + 1
    · rw [if_pos ⟨hji1, by rw [hrow1]; exact hj⟩,
        if_neg (by omega), if_pos hji1]
    · rw [if_neg (fun hc => hji1 hc.1),
        setSuperdiag_entry _ 0 (-1) i j hiz]
      by_cases hji : j = i
      · rw [if_pos ⟨by omega, by rw [hrow0]; exact hj⟩, if_pos hji]
      · rw [if_neg (fun hc => hji (by omega)), setZero_entry,
          if_neg hji, if_neg hji1]
  · intro p k L hpk
    simp only [gsl_multifit_linear_Lk]
    rw [if_pos hpk]

/-- Witness for C8: `Lk(3, 0)` on a 3×3 buffer, `Lk(3, 1)` on a 2×3
buffer, and the failing call `Lk(2, 3)`. -/
theorem Lk_identity_firstdiff_badlen_witness :
    ((gsl_multifit_linear_Lk 3 0 ⟨[[9, 9, 9], [9, 9, 9], [9, 9, 9]], 3⟩).1 =
      .ok ∧
     (gsl_multifit_linear_Lk 3 0
       ⟨[[9, 9, 9], [9, 9, 9], [9, 9, 9]], 3⟩).2.entry 0 1 = 0) ∧
    ((gsl_multifit_linear_Lk 3 1 ⟨[[9, 9, 9], [9, 9, 9]], 3⟩).1 = .ok ∧
     (gsl_multifit_linear_Lk 3 1 ⟨[[9, 9, 9], [9, 9, 9]], 3⟩).2.entry 1 2 =
       1) ∧
    (gsl_multifit_linear_Lk 2 3 ⟨[[9]], 1⟩).1 = .err .EBADLEN := by
  have ha := Lk_identity_firstdiff_badlen.1 3
    ⟨[[9, 9, 9], [9, 9, 9], [9, 9, 9]], 3⟩ (by decide)
    (by intro r hr; fin_cases hr <;> rfl) (by decide) (by decide)
  have hb := Lk_identity_firstdiff_badlen.2.1 3 ⟨[[9, 9, 9], [9, 9, 9]], 3⟩
    (by decide) (by intro r hr; fin_cases hr <;> rfl) (by decide) (by decide)
  have hc := Lk_identity_firstdiff_badlen.2.2 2 3 ⟨[[9]], 1⟩ (by decide)
  refine ⟨⟨ha.1, ?_⟩, ⟨hb.1, ?_⟩, hc⟩
  · rw [ha.2 0 1 (by decide) (by decide)]
    norm_num
  · rw [hb.2 1 2 (by decide) (by decide)]
    norm_num
